import Mathlib

/-!
Verification of the image data-codec (`src/main.go`).

The program encodes a payload into a grayscale raster image and decodes it
back:

* `encodeDataToImage` (main.go:17-70): JSON-marshals the payload, prepends a
  4-byte big-endian length, Reed-Solomon-splits/encodes the framed buffer into
  4 data + 2 parity shards, and draws the first `len(dataBytes)` flattened
  shard bytes into a square grayscale image of side
  `ceil(sqrt(len(dataBytes)))`.
* `decodeImageToData` (main.go:72-134): reads every pixel back as a grayscale
  byte (row-major), takes the first 4 bytes as a big-endian length, splits the
  remaining bytes into 6 shards, calls `Reconstruct` (a no-op when every shard
  is present, as it is here), concatenates the shards, truncates to the
  declared length and JSON-unmarshals.

Bytes are modelled as `Nat` (values produced by the Go code are `byte`, hence
`< 256`; theorems carry that bound explicitly where it matters).  The JSON
codec and the Reed-Solomon parity mathematics are external collaborators
(`encoding/json`, `github.com/klauspost/reedsolomon`); they are passed in as
parameters (`ser`/`deser`, `par`) exactly where the Go code calls them, and a
concrete instantiation for plain-ASCII payloads is provided for witnesses.
-/

deriving instance DecidableEq for Except

namespace ImgCodec

/-- `dataShards` of `reedsolomon.New(4, 2)` (main.go:32). -/
def dataShards : Nat := 4

/-- `parityShards` of `reedsolomon.New(4, 2)` (main.go:32). -/
def parityShards : Nat := 2

/-- Total shard count, data + parity. -/
def totalShards : Nat := 6

/-- `binary.BigEndian.PutUint32` (main.go:27): the four big-endian bytes of
`n` as a 32-bit value (Go's `uint32(len(dataBytes))` truncates mod 2^32). -/
def u32be (n : Nat) : List Nat :=
  [n / 2 ^ 24 % 256, n / 2 ^ 16 % 256, n / 2 ^ 8 % 256, n % 256]

/-- `binary.BigEndian.Uint32` (main.go:95) applied to the first four bytes of
the buffer: `b0<<24 | b1<<16 | b2<<8 | b3`.  The caller guards
`len(extractedBytes) >= 4`, so the short-list default is never reached. -/
def readU32be (l : List Nat) : Nat :=
  match l with
  | b0 :: b1 :: b2 :: b3 :: _ => b0 * 2 ^ 24 + b1 * 2 ^ 16 + b2 * 2 ^ 8 + b3
  | _ => 0

/-- One stored pixel of Go's `image.RGBA`: four 8-bit channels. -/
structure RGBA where
  r : Nat
  g : Nat
  b : Nat
  a : Nat
deriving DecidableEq

/-- `color.GrayModel.Convert` (main.go:84) on a stored `image.RGBA` pixel:
`color.RGBA.RGBA()` widens each 8-bit channel `c` to the 16-bit `c*0x101`,
and `grayModel` computes `(19595*r + 38470*g + 7471*b + 1<<15) >> 24`
(the coefficients sum to 65536, so the result is an exact byte). -/
def grayModelConvert (c : RGBA) : Nat :=
  (19595 * (c.r * 257) + 38470 * (c.g * 257) + 7471 * (c.b * 257) + 2 ^ 15) / 2 ^ 24

/-- `dc.SetColor(color.Gray{Y: v}); dc.SetPixel(x, y)` (main.go:65-66): the
gray byte `v` is stored into the context's `image.RGBA` as `(v, v, v, 255)`
(`color.RGBAModel` maps `Gray{v}.RGBA() = (v*0x101, …, 0xffff)` back to
8-bit channels). -/
def setGrayRGBA (v : Nat) : RGBA := ⟨v, v, v, 255⟩

/-- The unset background pixel of a fresh `gg.NewContext` (a zeroed
`image.RGBA`): transparent black. -/
def bgRGBA : RGBA := ⟨0, 0, 0, 0⟩

/-- A square raster image: side length and the stored pixel at `(x, y)`.
Models the `image.Image` flowing from `dc.Image()` to `decodeImageToData`
(bounds `Min = (0,0)`, `Max = (side, side)`); out-of-bounds reads return the
zero color, but the decoder never performs one. -/
structure GoImage where
  side : Nat
  pix : Nat → Nat → RGBA

/-- Bounded search for the least `k' ≥ k` with `n ≤ k' * k'`. -/
def ceilSqrtAux (n : Nat) : Nat → Nat → Nat
  | 0, k => k
  | fuel + 1, k => if n ≤ k * k then k else ceilSqrtAux n fuel (k + 1)

/-- `int(math.Ceil(math.Sqrt(float64(n))))` (main.go:52), exact for every
size in scope: the least `S` with `n ≤ S*S`. -/
def ceilSqrt (n : Nat) : Nat :=
  ceilSqrtAux n n 0

/-- Per-shard byte count used by `reedsolomon` `Split`:
`perShard := (len(data) + r.dataShards - 1) / r.dataShards`. -/
def perShardLen (n : Nat) : Nat := (n + dataShards - 1) / dataShards

/-- `enc.Split(data)` of `klauspost/reedsolomon` (main.go:38, main.go:109):
errors with `ErrShortData` on an empty buffer, otherwise zero-pads the data
to `totalShards * perShard` bytes and cuts it into `totalShards` consecutive
shards of `perShard` bytes each (the data occupies the first `dataShards`
shards, the rest is the zero filling later overwritten by `Encode`). -/
def rsSplit (data : List Nat) : Except String (List (List Nat)) :=
  if data.length = 0 then
    Except.error "not enough data to fill the number of requested shards"
  else
    let per := perShardLen data.length
    let padded := data ++ List.replicate (totalShards * per - data.length) 0
    Except.ok ((List.range totalShards).map fun i => (padded.drop (i * per)).take per)

/-- `enc.Encode(shards)` (main.go:44): a systematic code — the `dataShards`
data shards are left unchanged and the `parityShards` parity shards are
recomputed from them.  The Reed-Solomon parity mathematics is an external
capability (spec §4.2) consumed abstractly as `par`; no theorem below
depends on parity contents, because the encoder never writes a parity byte
into the image. -/
def rsEncode (par : List (List Nat) → List (List Nat)) (shards : List (List Nat)) :
    List (List Nat) :=
  shards.take dataShards ++ par (shards.take dataShards)

/-- `enc.Reconstruct(shards)` (main.go:115): the library returns immediately
with no error and no modification when every shard is non-nil, and
`decodeImageToData` always passes the output of `Split`, whose six shards
are all present (nothing ever marks a shard missing), so this call is a
no-op on every reachable input. -/
def rsReconstruct (shards : List (List Nat)) : Except String (List (List Nat)) :=
  Except.ok shards

/-- The pixel-writing loop of `encodeDataToImage` (main.go:48-67), as a
function of the flattened shard bytes and the pixel count `totalPixels` the
code chooses: side `ceilSqrt totalPixels`; pixel `i < totalPixels` at
`(i % side, i / side)` holds gray byte `flatBytes[i]`; every other cell
keeps the context's background. -/
def toImageN (flatBytes : List Nat) (totalPixels : Nat) : GoImage :=
  let sideLength := ceilSqrt totalPixels
  { side := sideLength
    pix := fun x y =>
      if x < sideLength ∧ y < sideLength ∧ y * sideLength + x < totalPixels then
        setGrayRGBA (flatBytes.getD (y * sideLength + x) 0)
      else bgRGBA }

/-- The Pixel Mapper `toImage` of spec §4.3: the pixel loop applied to a flat
byte sequence with `totalPixels = len(flatBytes)`. -/
def toImage (flatBytes : List Nat) : GoImage :=
  toImageN flatBytes flatBytes.length

/-- The pixel-reading loop of `decodeImageToData` (main.go:74-88) — the Pixel
Mapper `fromImage` of spec §4.3: every pixel converted to its grayscale
byte, row-major (`y` outer, `x` inner). -/
def fromImage (img : GoImage) : List Nat :=
  ((List.range img.side).map fun y =>
    (List.range img.side).map fun x => grayModelConvert (img.pix x y)).flatten

/-- Go slice expression `rebuiltData[:dataLength]` (main.go:125), guarded:
out-of-range slicing is modelled as an error (the theorems below show the
guard always holds on the path `decodeImageToData` takes). -/
def goSliceTo (xs : List Nat) (n : Nat) : Except String (List Nat) :=
  if n ≤ xs.length then Except.ok (xs.take n)
  else Except.error "slice bounds out of range"

/-- `encodeDataToImage` (main.go:17-70).  `ser` is the external
`json.Marshal` collaborator, `par` the external Reed-Solomon parity
capability.  Note `totalPixels := len(dataBytes)` (main.go:50) — the length
of the *framed buffer*, not of `flattenedData`. -/
def encodeDataToImage {α : Type} (ser : α → List Nat)
    (par : List (List Nat) → List (List Nat)) (data : α) : Except String GoImage :=
  let dataBytes0 := ser data
  let dataBytes := u32be dataBytes0.length ++ dataBytes0
  match rsSplit dataBytes with
  | Except.error e => Except.error e
  | Except.ok shards =>
    let encShards := rsEncode par shards
    let totalPixels := dataBytes.length
    let flattenedData := encShards.flatten
    Except.ok (toImageN flattenedData totalPixels)

/-- `decodeImageToData` (main.go:72-134).  `deser` is the external
`json.Unmarshal` collaborator. -/
def decodeImageToData {α : Type} (deser : List Nat → Except String α)
    (img : GoImage) : Except String α :=
  let extractedBytes := fromImage img
  if extractedBytes.length < 4 then Except.error "insufficient data in image"
  else
    let dataLength := readU32be extractedBytes
    let encodedDataBytes := extractedBytes.drop 4
    if encodedDataBytes.length < dataLength then
      Except.error "data in image is shorter than expected"
    else
      match rsSplit encodedDataBytes with
      | Except.error e => Except.error e
      | Except.ok shards =>
        match rsReconstruct shards with
        | Except.error e => Except.error e
        | Except.ok shards2 =>
          match goSliceTo shards2.flatten dataLength with
          | Except.error e => Except.error e
          | Except.ok rebuiltData => deser rebuiltData

/-- The Framer `frame` of spec §4.1 (main.go:24-29): prepend the 4-byte
big-endian length. -/
def frame (payload : List Nat) : List Nat :=
  u32be payload.length ++ payload

/-- The Framer `unframe`'s declared-length extraction of spec §4.1
(main.go:90-95): error on buffers shorter than 4 bytes, otherwise the
big-endian u32 of the first four bytes. -/
def unframeDeclaredLength (buffer : List Nat) : Except String Nat :=
  if buffer.length < 4 then Except.error "insufficient data in image"
  else Except.ok (readU32be buffer)

/-- `json.Marshal` of the map binding `"Data"` to the payload string `s`,
restricted to payload
strings of plain ASCII bytes (no quote, backslash or control characters):
the bytes of `{"Data":"` followed by the payload bytes and `"}`.  Concrete
instantiation of the external serialization collaborator, used by witnesses
and counterexamples. -/
def jsonMarshalData (p : List Nat) : List Nat :=
  [123, 34, 68, 97, 116, 97, 34, 58, 34] ++ p ++ [34, 125]

/-- `json.Unmarshal` into a string-keyed map followed by reading the
`"Data"` key, restricted to the image of `jsonMarshalData`: checks the
`{"Data":"` head and `"}` tail and extracts the payload bytes between them;
anything else is a serialization error. -/
def jsonUnmarshalData (bs : List Nat) : Except String (List Nat) :=
  if bs.take 9 = [123, 34, 68, 97, 116, 97, 34, 58, 34] ∧ 11 ≤ bs.length ∧
      bs.drop (bs.length - 2) = [34, 125] then
    Except.ok ((bs.drop 9).take (bs.length - 11))
  else Except.error "invalid character"

/-- A concrete Reed-Solomon parity capability of the correct shape used by
witnesses (no theorem depends on parity contents): two parity shards of the
data-shard length, zero-filled. -/
def parityZeros (shards : List (List Nat)) : List (List Nat) :=
  List.replicate parityShards (List.replicate (shards.headD []).length 0)

/-- The bytes of the payload string `"hello"`. -/
def helloBytes : List Nat := [104, 101, 108, 108, 111]

/-- Paint the stream positions `[lo, hi)` of an image black (gray byte 0):
the pixel at stream index `i = y*side + x` is replaced by opaque black.
Models zeroing a contiguous shard region of the image before decoding. -/
def zeroPixelRange (img : GoImage) (lo hi : Nat) : GoImage :=
  { side := img.side
    pix := fun x y =>
      if x < img.side ∧ lo ≤ y * img.side + x ∧ y * img.side + x < hi then ⟨0, 0, 0, 255⟩
      else img.pix x y }

/-! ### Helper lemmas -/

/-- Invariant of the bounded search: if the search window contains a large
enough `k'`, the result is the least such `k'` at or above the start. -/
theorem ceilSqrtAux_spec (n : Nat) : ∀ fuel k, n ≤ (k + fuel) * (k + fuel) →
    n ≤ ceilSqrtAux n fuel k * ceilSqrtAux n fuel k ∧
    (∀ j, k ≤ j → j < ceilSqrtAux n fuel k → j * j < n) ∧
    k ≤ ceilSqrtAux n fuel k := by
  intro fuel
  induction fuel with
  | zero =>
    intro k h
    simp only [ceilSqrtAux]
    exact ⟨by simpa using h, fun j h1 h2 => absurd (h1.trans_lt h2) (lt_irrefl k), le_refl k⟩
  | succ fuel ih =>
    intro k h
    simp only [ceilSqrtAux]
    by_cases hk : n ≤ k * k
    · rw [if_pos hk]
      exact ⟨hk, fun j h1 h2 => absurd (h1.trans_lt h2) (lt_irrefl k), le_refl k⟩
    · rw [if_neg hk]
      obtain ⟨ha, hb, hc⟩ := ih (k + 1) (by
        have : k + 1 + fuel = k + (fuel + 1) := by omega
        rw [this]
        exact h)
      refine ⟨ha, ?_, by omega⟩
      intro j h1 h2
      rcases Nat.eq_or_lt_of_le h1 with rfl | h1'
      · omega
      · exact hb j (by omega) h2

/-- `ceilSqrt` really is the ceiling of the square root: `n` fits in a
`ceilSqrt n × ceilSqrt n` grid. -/
theorem le_ceilSqrt_mul (n : Nat) : n ≤ ceilSqrt n * ceilSqrt n := by
  have hn : n ≤ (0 + n) * (0 + n) := by
    rcases n with _ | m
    · simp
    · have h := Nat.mul_le_mul_left (m + 1) (show 1 ≤ m + 1 by omega)
      rw [Nat.mul_one] at h
      simp only [Nat.zero_add]
      exact h
  exact (ceilSqrtAux_spec n n 0 hn).1

/-- Everything below `ceilSqrt n` is too small a side. -/
theorem lt_of_lt_ceilSqrt (n j : Nat) (h : j < ceilSqrt n) : j * j < n := by
  have hn : n ≤ (0 + n) * (0 + n) := by
    rcases n with _ | m
    · simp
    · have h := Nat.mul_le_mul_left (m + 1) (show 1 ≤ m + 1 by omega)
      rw [Nat.mul_one] at h
      simp only [Nat.zero_add]
      exact h
  exact (ceilSqrtAux_spec n n 0 hn).2.1 j (Nat.zero_le j) h

/-- `ceilSqrt` is minimal among sufficient sides. -/
theorem ceilSqrt_le_of (n j : Nat) (h : n ≤ j * j) : ceilSqrt n ≤ j := by
  by_contra hc
  exact absurd h (by simpa using lt_of_lt_ceilSqrt n j (by omega))

/-- `ceilSqrt` of a perfect square is its root. -/
theorem ceilSqrt_mul_self (k : Nat) : ceilSqrt (k * k) = k := by
  have h1 : ceilSqrt (k * k) ≤ k := ceilSqrt_le_of (k * k) k (le_refl _)
  have h2 : k ≤ ceilSqrt (k * k) := by
    have hle := le_ceilSqrt_mul (k * k)
    by_contra hc
    have := Nat.mul_self_lt_mul_self (show ceilSqrt (k * k) < k by omega)
    omega
  omega

/-- Writing a gray byte through `gg` and reading it back through
`color.GrayModel` is the identity on bytes. -/
theorem grayModelConvert_setGray (v : Nat) (h : v < 256) :
    grayModelConvert (setGrayRGBA v) = v := by
  unfold grayModelConvert setGrayRGBA
  simp only
  omega

/-- The untouched background pixel reads back as the zero byte. -/
theorem grayModelConvert_bg : grayModelConvert bgRGBA = 0 := by decide

/-- Reading the big-endian u32 at the head of a framed buffer recovers the
framed length exactly, for lengths below `2^32`. -/
theorem readU32be_u32be (L : Nat) (r : List Nat) (h : L < 2 ^ 32) :
    readU32be (u32be L ++ r) = L := by
  simp only [u32be, List.cons_append, List.nil_append, readU32be]
  omega

/-- `readU32be` only looks at the first four bytes. -/
theorem readU32be_congr {l1 l2 : List Nat} (h : l1.take 4 = l2.take 4) :
    readU32be l1 = readU32be l2 := by
  rcases l1 with _ | ⟨a, _ | ⟨b, _ | ⟨c, _ | ⟨d, t⟩⟩⟩⟩ <;>
    rcases l2 with _ | ⟨a', _ | ⟨b', _ | ⟨c', _ | ⟨d', t'⟩⟩⟩⟩ <;>
    simp_all [readU32be]

/-- Row-major double loop over an `S×S` grid as a single loop over
`S*S` indices. -/
theorem flatten_map_range (g : Nat → Nat) (m s : Nat) :
    ((List.range m).map fun y => (List.range s).map fun x => g (y * s + x)).flatten
      = (List.range (m * s)).map g := by
  induction m with
  | zero => simp
  | succ m ih =>
    rw [List.range_succ, List.map_append, List.flatten_append, ih, Nat.succ_mul,
      List.range_add, List.map_append, List.map_map]
    simp [Function.comp_def]

/-- A guarded index read over a full index range is a take-and-pad. -/
theorem map_range_ite (f : List Nat) (n k : Nat) (hnk : n ≤ k) (hnf : n ≤ f.length) :
    (List.range k).map (fun i => if i < n then f.getD i 0 else 0)
      = f.take n ++ List.replicate (k - n) 0 := by
  apply List.ext_getElem
  · simp
    omega
  · intro i h1 h2
    simp only [List.getElem_map, List.getElem_range]
    by_cases hi : i < n
    · rw [if_pos hi, List.getElem_append_left (by simp; omega)]
      rw [List.getElem_take, List.getD_eq_getElem f 0 (by omega)]
    · rw [if_neg hi, List.getElem_append_right (by simp; omega)]
      simp

/-- Concatenating the first `t` consecutive `per`-byte chunks of a buffer
gives its first `t*per` bytes. -/
theorem flatten_chunks (l : List Nat) (per t : Nat) :
    ((List.range t).map fun i => (l.drop (i * per)).take per).flatten = l.take (t * per) := by
  induction t with
  | zero => simp
  | succ t ih =>
    rw [List.range_succ, List.map_append, List.flatten_append, ih]
    simp only [List.map_cons, List.map_nil, List.flatten_cons, List.flatten_nil,
      List.append_nil]
    rw [Nat.succ_mul, List.take_add]

/-- The decoder's pixel scan reads exactly `side*side` bytes. -/
theorem fromImage_length (img : GoImage) : (fromImage img).length = img.side * img.side := by
  simp [fromImage, List.length_flatten, List.map_map, Function.comp_def]

/-- The shard list `rsSplit` produces on a nonempty buffer (proof helper:
the value inside `rsSplit`'s `ok`). -/
def rsChunks (l : List Nat) : List (List Nat) :=
  (List.range totalShards).map fun i =>
    ((l ++ List.replicate (totalShards * perShardLen l.length - l.length) 0).drop
      (i * perShardLen l.length)).take (perShardLen l.length)

theorem rsSplit_eq_ok (l : List Nat) (h : l.length ≠ 0) :
    rsSplit l = Except.ok (rsChunks l) := by
  simp [rsSplit, rsChunks, h]

/-- The buffer length never exceeds `totalShards` shards' capacity. -/
theorem length_le_total_perShard (n : Nat) : n ≤ totalShards * perShardLen n := by
  unfold totalShards perShardLen dataShards
  omega

/-- The buffer length never exceeds the data shards' capacity. -/
theorem length_le_data_perShard (n : Nat) : n ≤ dataShards * perShardLen n := by
  unfold perShardLen dataShards
  omega

/-- Flattening all six shards of `Split` gives the buffer zero-padded to
`totalShards * perShard` bytes. -/
theorem rsChunks_flatten (l : List Nat) :
    (rsChunks l).flatten
      = l ++ List.replicate (totalShards * perShardLen l.length - l.length) 0 := by
  unfold rsChunks
  rw [flatten_chunks, List.take_of_length_le]
  have := length_le_total_perShard l.length
  simp
  omega

/-- Flattening only the four data shards of `Split` gives the buffer
zero-padded to `dataShards * perShard` bytes. -/
theorem rsChunks_take_data_flatten (l : List Nat) :
    ((rsChunks l).take dataShards).flatten
      = l ++ List.replicate (dataShards * perShardLen l.length - l.length) 0 := by
  unfold rsChunks
  rw [← List.map_take, List.take_range, flatten_chunks]
  have hd : min dataShards totalShards = dataShards := by decide
  rw [hd]
  have h4 := length_le_data_perShard l.length
  have h6 := length_le_total_perShard l.length
  have hmul : dataShards * perShardLen l.length ≤ totalShards * perShardLen l.length :=
    Nat.mul_le_mul (by decide) (le_refl _)
  rw [List.take_append_eq_append_take, List.take_of_length_le (by omega),
    List.take_replicate]
  simp
  omega

/-- Reading back an image drawn from `flatBytes[0 .. totalPixels)` yields
those bytes followed by the zero background of the unwritten cells. -/
theorem fromImage_toImageN (f : List Nat) (n : Nat) (hn : n ≤ f.length)
    (hb : ∀ i, i < n → f.getD i 0 < 256) :
    fromImage (toImageN f n)
      = f.take n ++ List.replicate (ceilSqrt n * ceilSqrt n - n) 0 := by
  have hS := le_ceilSqrt_mul n
  unfold fromImage toImageN
  simp only
  have step1 : ((List.range (ceilSqrt n)).map fun y =>
        (List.range (ceilSqrt n)).map fun x =>
          grayModelConvert
            (if x < ceilSqrt n ∧ y < ceilSqrt n ∧ y * ceilSqrt n + x < n then
              setGrayRGBA (f.getD (y * ceilSqrt n + x) 0)
            else bgRGBA))
      = (List.range (ceilSqrt n)).map fun y =>
          (List.range (ceilSqrt n)).map fun x =>
            (fun i => if i < n then f.getD i 0 else 0) (y * ceilSqrt n + x) := by
    apply List.map_congr_left
    intro y hy
    apply List.map_congr_left
    intro x hx
    rw [List.mem_range] at hy hx
    by_cases h : y * ceilSqrt n + x < n
    · rw [if_pos ⟨hx, hy, h⟩]
      simp only [h, if_pos]
      exact grayModelConvert_setGray _ (hb _ h)
    · rw [if_neg (by tauto)]
      simp only [h, if_neg, grayModelConvert_bg]
      simp [h]
  rw [step1,
    flatten_map_range (fun i => if i < n then f.getD i 0 else 0) (ceilSqrt n) (ceilSqrt n),
    map_range_ite f n _ hS hn]

/-- The framed buffer is the payload plus four length bytes. -/
theorem frame_length (x : List Nat) : (frame x).length = x.length + 4 := by
  simp [frame, u32be]

/-- Every byte of a framed buffer of in-range payload bytes is a byte. -/
theorem frame_bytes_lt (x : List Nat) (hb : ∀ b ∈ x, b < 256) :
    ∀ b ∈ frame x, b < 256 := by
  intro b hbm
  simp only [frame, u32be, List.mem_append, List.mem_cons, List.not_mem_nil, or_false] at hbm
  rcases hbm with h | h
  · rcases h with h | h | h | h <;> omega
  · exact hb b h

/-- `encodeDataToImage` never fails: the Reed-Solomon parameters are valid
and the framed buffer is nonempty, so it always returns the image drawn
from the flattened encoded shards with `totalPixels` = framed length. -/
theorem encode_eq {α : Type} (ser : α → List Nat)
    (par : List (List Nat) → List (List Nat)) (p : α) :
    encodeDataToImage ser par p
      = Except.ok (toImageN ((rsEncode par (rsChunks (frame (ser p)))).flatten)
          (frame (ser p)).length) := by
  simp only [encodeDataToImage]
  rw [show u32be (ser p).length ++ ser p = frame (ser p) from rfl,
    rsSplit_eq_ok _ (by rw [frame_length]; omega)]

/-- The flattened encoded shard bytes start with the framed buffer: the
first `len(dataBytes)` flattened bytes are exactly the framed buffer,
whatever the parity capability produces. -/
theorem encode_flat_take (fr : List Nat)
    (par : List (List Nat) → List (List Nat)) :
    ((rsEncode par (rsChunks fr)).flatten).take fr.length = fr := by
  unfold rsEncode
  rw [List.flatten_append, rsChunks_take_data_flatten,
    List.take_append_eq_append_take]
  have h4 := length_le_data_perShard fr.length
  rw [List.take_append_eq_append_take, List.take_of_length_le (le_refl _),
    List.take_replicate]
  simp

/-- The flattened encoded shard bytes are at least as long as the framed
buffer (the four data shards alone already cover it). -/
theorem encode_flat_length (fr : List Nat)
    (par : List (List Nat) → List (List Nat)) :
    fr.length ≤ ((rsEncode par (rsChunks fr)).flatten).length := by
  unfold rsEncode
  rw [List.flatten_append, rsChunks_take_data_flatten]
  have h4 := length_le_data_perShard fr.length
  simp

/-- The byte drawn at flattened index `i < len(dataBytes)` is the framed
buffer's byte `i`. -/
theorem encode_flat_getD (fr : List Nat)
    (par : List (List Nat) → List (List Nat)) (i : Nat) (hi : i < fr.length) :
    ((rsEncode par (rsChunks fr)).flatten).getD i 0 = fr.getD i 0 := by
  have htake := encode_flat_take fr par
  calc ((rsEncode par (rsChunks fr)).flatten).getD i 0
      = ((rsEncode par (rsChunks fr)).flatten.take fr.length ++
          (rsEncode par (rsChunks fr)).flatten.drop fr.length).getD i 0 := by
        rw [List.take_append_drop]
    _ = ((rsEncode par (rsChunks fr)).flatten.take fr.length).getD i 0 :=
        List.getD_append _ _ _ _ (by rw [htake]; exact hi)
    _ = fr.getD i 0 := by rw [htake]

/-- What `encodeDataToImage` draws, read back as a byte stream: the framed
buffer followed by the zero background of the unwritten trailing cells.
No parity byte reaches the image. -/
theorem encode_stream {α : Type} (ser : α → List Nat)
    (par : List (List Nat) → List (List Nat)) (p : α)
    (hb : ∀ b ∈ ser p, b < 256) :
    ∃ img, encodeDataToImage ser par p = Except.ok img ∧
      img.side = ceilSqrt (frame (ser p)).length ∧
      fromImage img = frame (ser p) ++
        List.replicate (ceilSqrt (frame (ser p)).length *
          ceilSqrt (frame (ser p)).length - (frame (ser p)).length) 0 := by
  refine ⟨_, encode_eq ser par p, rfl, ?_⟩
  rw [fromImage_toImageN _ _ (encode_flat_length _ par) ?hbound]
  · rw [encode_flat_take]
  case hbound =>
    intro i hi
    rw [encode_flat_getD _ par i hi]
    have hmem : (frame (ser p)).getD i 0 ∈ frame (ser p) := by
      rw [List.getD_eq_getElem _ 0 hi]
      exact List.getElem_mem ..
    exact frame_bytes_lt (ser p) hb _ hmem

/-- Evaluation of `decodeImageToData` on the happy path: when the stream
holds at least 4 bytes, the declared length is available, and the remaining
bytes are nonempty, the decoder hands `deser` the first `dataLength` bytes
of the zero-padded shard concatenation. -/
theorem decode_stream_eval {α : Type} (deser : List Nat → Except String α)
    (img : GoImage) (h4 : ¬ (fromImage img).length < 4)
    (hL : ¬ ((fromImage img).drop 4).length < readU32be (fromImage img))
    (hne : ((fromImage img).drop 4).length ≠ 0) :
    decodeImageToData deser img
      = deser ((((fromImage img).drop 4) ++ List.replicate
          (totalShards * perShardLen ((fromImage img).drop 4).length -
            ((fromImage img).drop 4).length) 0).take (readU32be (fromImage img))) := by
  simp only [decodeImageToData]
  rw [if_neg h4, if_neg hL, rsSplit_eq_ok _ hne]
  simp only [rsReconstruct]
  rw [rsChunks_flatten]
  unfold goSliceTo
  rw [if_pos ?hbound]
  case hbound =>
    have h1 := length_le_total_perShard ((fromImage img).drop 4).length
    have h2 := List.length_drop 4 (fromImage img)
    simp
    omega

/-- C1: for every payload `p` whose serialized form is a nonempty byte
string shorter than `2^32` bytes and which the serialization collaborator
round-trips, decoding the image produced by encoding `p` returns exactly
`p` with no error. -/
theorem decode_encode_roundtrip {α : Type} (ser : α → List Nat)
    (deser : List Nat → Except String α)
    (par : List (List Nat) → List (List Nat)) (p : α)
    (hbytes : ∀ b ∈ ser p, b < 256)
    (hpos : 1 ≤ (ser p).length)
    (hsize : (ser p).length < 2 ^ 32)
    (hjson : deser (ser p) = Except.ok p) :
    (encodeDataToImage ser par p).bind (decodeImageToData deser) = Except.ok p := by
  obtain ⟨img, henc, hside, hstr⟩ := encode_stream ser par p hbytes
  have hn := frame_length (ser p)
  have hS := le_ceilSqrt_mul (frame (ser p)).length
  set M := ceilSqrt (frame (ser p)).length * ceilSqrt (frame (ser p)).length with hM
  set n := (frame (ser p)).length with hnn
  have hsplit : fromImage img = u32be (ser p).length ++
      (ser p ++ List.replicate (M - n) 0) := by
    rw [hstr, show frame (ser p) = u32be (ser p).length ++ ser p from rfl,
      List.append_assoc]
  have hread : readU32be (fromImage img) = (ser p).length := by
    rw [hsplit]
    exact readU32be_u32be _ _ hsize
  have hdrop : (fromImage img).drop 4 = ser p ++ List.replicate (M - n) 0 := by
    rw [hsplit, show (4 : Nat) = (u32be (ser p).length).length by simp [u32be],
      List.drop_left]
  have hlen : (fromImage img).length = M := by
    rw [fromImage_length, hside, hM, hnn]
  rw [henc]
  show decodeImageToData deser img = Except.ok p
  rw [decode_stream_eval deser img (by omega) ?hL ?hne]
  · rw [hread, hdrop, List.append_assoc,
      show (ser p).length = (ser p).length from rfl, List.take_left]
    exact hjson
  case hL =>
    rw [hread, hdrop]
    simp only [List.length_append, List.length_replicate]
    omega
  case hne =>
    rw [hdrop]
    simp only [List.length_append, List.length_replicate]
    omega

/-- Witness for C1 at the payload string `"hello"` with the concrete JSON
collaborator and a concrete parity capability. -/
theorem decode_encode_roundtrip_witness :
    (∀ b ∈ jsonMarshalData helloBytes, b < 256) ∧
    1 ≤ (jsonMarshalData helloBytes).length ∧
    (jsonMarshalData helloBytes).length < 2 ^ 32 ∧
    jsonUnmarshalData (jsonMarshalData helloBytes) = Except.ok helloBytes ∧
    (encodeDataToImage jsonMarshalData parityZeros helloBytes).bind
      (decodeImageToData jsonUnmarshalData) = Except.ok helloBytes :=
  ⟨by decide, by decide, by decide, by decide,
    decode_encode_roundtrip jsonMarshalData jsonUnmarshalData parityZeros helloBytes
      (by decide) (by decide) (by decide) (by decide)⟩

/-- Taking at most the left part of an append ignores the right part. -/
theorem take_append_of_le (a b : List Nat) (n : Nat) (h : n ≤ a.length) :
    (a ++ b).take n = a.take n := by
  rw [List.take_append_eq_append_take, show n - a.length = 0 by omega]
  simp

/-- Inversion for a successful `Split`. -/
theorem rsSplit_ok_inv {l : List Nat} {ss : List (List Nat)}
    (h : rsSplit l = Except.ok ss) : l.length ≠ 0 ∧ ss = rsChunks l := by
  by_cases hl : l.length = 0
  · rw [rsSplit, if_pos hl] at h
    exact absurd h (by simp)
  · rw [rsSplit_eq_ok l hl] at h
    exact ⟨hl, (Except.ok.inj h).symm⟩

/-- C5: framing a byte string and reading back the first four bytes as a
big-endian u32 yields exactly its length, for lengths up to `2^32 - 1`. -/
theorem unframe_frame_declaredLength (x : List Nat) (h : x.length < 2 ^ 32) :
    unframeDeclaredLength (frame x) = Except.ok x.length := by
  unfold unframeDeclaredLength
  rw [if_neg (by rw [frame_length]; omega),
    show frame x = u32be x.length ++ x from rfl, readU32be_u32be _ _ h]

/-- Witness for C5 at the bytes of `"hello"`. -/
theorem unframe_frame_declaredLength_witness :
    helloBytes.length < 2 ^ 32 ∧
    unframeDeclaredLength (frame helloBytes) = Except.ok helloBytes.length :=
  ⟨by decide, unframe_frame_declaredLength helloBytes (by decide)⟩

/-- C6: reading back the pixel grid produced from a byte sequence `b`
returns `b` zero-padded to `S*S` (`S = ceilSqrt (len b)`) — the padding
value is always the zero byte — and returns exactly `b` when `len b` is a
perfect square. -/
theorem fromImage_toImage_eq (b : List Nat) (hb : ∀ v ∈ b, v < 256) :
    fromImage (toImage b)
      = b ++ List.replicate (ceilSqrt b.length * ceilSqrt b.length - b.length) 0 ∧
    (∀ k, b.length = k * k → fromImage (toImage b) = b) := by
  have h1 : fromImage (toImage b)
      = b ++ List.replicate (ceilSqrt b.length * ceilSqrt b.length - b.length) 0 := by
    unfold toImage
    rw [fromImage_toImageN b b.length (le_refl _) ?hb']
    · rw [List.take_length]
    case hb' =>
      intro i hi
      rw [List.getD_eq_getElem _ 0 hi]
      exact hb _ (List.getElem_mem ..)
  refine ⟨h1, ?_⟩
  intro k hk
  rw [h1, hk, ceilSqrt_mul_self]
  simp

/-- Witness for C6 at the perfect-square-length sequence `[1,2,3,4]`. -/
theorem fromImage_toImage_eq_witness :
    (∀ v ∈ ([1, 2, 3, 4] : List Nat), v < 256) ∧
    ([1, 2, 3, 4] : List Nat).length = 2 * 2 ∧
    fromImage (toImage [1, 2, 3, 4]) = [1, 2, 3, 4] :=
  ⟨by decide, by decide,
    (fromImage_toImage_eq [1, 2, 3, 4] (by decide)).2 2 (by decide)⟩

/-- C7: when the image holds fewer than four pixels the decoder fails with
the insufficient-data error before reading any length field. -/
theorem decode_insufficient_data {α : Type} (deser : List Nat → Except String α)
    (img : GoImage) (h : img.side * img.side < 4) :
    decodeImageToData deser img = Except.error "insufficient data in image" := by
  simp only [decodeImageToData]
  rw [if_pos (by rw [fromImage_length]; exact h)]

/-- Witness for C7 at a concrete 1×1 image. -/
theorem decode_insufficient_data_witness :
    (1 * 1 : Nat) < 4 ∧
    decodeImageToData jsonUnmarshalData (⟨1, fun _ _ => ⟨7, 7, 7, 255⟩⟩ : GoImage)
      = Except.error "insufficient data in image" :=
  ⟨by decide, decode_insufficient_data jsonUnmarshalData _ (by decide)⟩

/-- C8: encoding is deterministic — the produced image is a pure function of
the serialized payload, identical pixel for pixel across calls, whatever the
parity capability computes (no parity byte is ever drawn). -/
theorem encode_deterministic {α : Type} (ser : α → List Nat)
    (par par' : List (List Nat) → List (List Nat)) (p : α) :
    encodeDataToImage ser par p = encodeDataToImage ser par' p := by
  rw [encode_eq, encode_eq]
  have h : toImageN ((rsEncode par (rsChunks (frame (ser p)))).flatten)
        (frame (ser p)).length
      = toImageN ((rsEncode par' (rsChunks (frame (ser p)))).flatten)
        (frame (ser p)).length := by
    unfold toImageN
    simp only
    congr 1
    funext x y
    by_cases hc : x < ceilSqrt (frame (ser p)).length ∧
        y < ceilSqrt (frame (ser p)).length ∧
        y * ceilSqrt (frame (ser p)).length + x < (frame (ser p)).length
    · rw [if_pos hc, if_pos hc, encode_flat_getD _ par _ hc.2.2,
        encode_flat_getD _ par' _ hc.2.2]
    · rw [if_neg hc, if_neg hc]
  rw [h]

/-- C4 amended: the grid side is `ceilSqrt` of the *framed buffer* length
`len(serialized payload) + 4` — not of the total flattened shard byte count —
and the square covers exactly those framed bytes. -/
theorem grid_side_from_framed_length {α : Type} (ser : α → List Nat)
    (par : List (List Nat) → List (List Nat)) (p : α) :
    ∃ img, encodeDataToImage ser par p = Except.ok img ∧
      img.side = ceilSqrt ((ser p).length + 4) ∧
      (ser p).length + 4 ≤ img.side * img.side := by
  refine ⟨_, encode_eq ser par p, ?_, ?_⟩
  · show ceilSqrt (frame (ser p)).length = ceilSqrt ((ser p).length + 4)
    rw [frame_length]
  · show (ser p).length + 4 ≤ ceilSqrt (frame (ser p)).length *
      ceilSqrt (frame (ser p)).length
    rw [frame_length]
    exact le_ceilSqrt_mul _

/-- Counterexample to C4 as stated: for the payload `"hello"` the flattened
shard bytes (data + parity after padding) number `n = 30`, but the image
side is `5 = ceilSqrt 20`, not `ceilSqrt 30 = 6`, and `5*5 = 25 < 30`, so
the claimed `S*S ≥ n` fails: the parity bytes have no cells. -/
theorem grid_sizing_cex :
    ∃ img shards,
      encodeDataToImage jsonMarshalData parityZeros helloBytes = Except.ok img ∧
      rsSplit (u32be (jsonMarshalData helloBytes).length ++ jsonMarshalData helloBytes)
        = Except.ok shards ∧
      (rsEncode parityZeros shards).flatten.length = 30 ∧
      img.side = 5 ∧ ceilSqrt 30 = 6 ∧ img.side * img.side < 30 :=
  ⟨_, _, encode_eq jsonMarshalData parityZeros helloBytes,
    rsSplit_eq_ok _ (by decide), by decide, by decide, by decide, by decide⟩

/-- C3 amended: the flattened row-major pixel stream of the produced image
is the 4-byte big-endian length field, then the serialized payload bytes,
then zero padding up to `S*S`; the parity shards (and the data shards' own
zero padding beyond the framed buffer) never reach the image. -/
theorem encode_stream_layout {α : Type} (ser : α → List Nat)
    (par : List (List Nat) → List (List Nat)) (p : α)
    (hb : ∀ b ∈ ser p, b < 256) :
    ∃ img, encodeDataToImage ser par p = Except.ok img ∧
      fromImage img = u32be (ser p).length ++ ser p ++
        List.replicate (ceilSqrt ((ser p).length + 4) * ceilSqrt ((ser p).length + 4)
          - ((ser p).length + 4)) 0 := by
  obtain ⟨img, henc, hside, hstr⟩ := encode_stream ser par p hb
  refine ⟨img, henc, ?_⟩
  rw [hstr, frame_length, show frame (ser p) = u32be (ser p).length ++ ser p from rfl,
    List.append_assoc]

/-- Witness for the amended C3 at the payload `"hello"`. -/
theorem encode_stream_layout_witness :
    (∀ b ∈ jsonMarshalData helloBytes, b < 256) ∧
    ∃ img, encodeDataToImage jsonMarshalData parityZeros helloBytes = Except.ok img ∧
      fromImage img = u32be (jsonMarshalData helloBytes).length ++
        jsonMarshalData helloBytes ++
        List.replicate (ceilSqrt ((jsonMarshalData helloBytes).length + 4) *
          ceilSqrt ((jsonMarshalData helloBytes).length + 4)
          - ((jsonMarshalData helloBytes).length + 4)) 0 :=
  ⟨by decide, encode_stream_layout jsonMarshalData parityZeros helloBytes (by decide)⟩

/-- Counterexample to C3 as stated: for the payload `"hello"` the pixel
stream has 25 bytes, but a stream consisting of a 4-byte length field
followed by all `totalShards = 6` shards of `perShardLen 20 = 5` bytes each
would have 34 bytes — no choice of shard contents matches the image. -/
theorem encode_stream_missing_parity_cex :
    ∃ img, encodeDataToImage jsonMarshalData parityZeros helloBytes = Except.ok img ∧
      ¬ ∃ shards : List (List Nat), shards.length = totalShards ∧
        (∀ s ∈ shards, s.length = perShardLen ((jsonMarshalData helloBytes).length + 4)) ∧
        fromImage img = u32be (jsonMarshalData helloBytes).length ++ shards.flatten := by
  refine ⟨_, encode_eq jsonMarshalData parityZeros helloBytes, ?_⟩
  rintro ⟨shards, hcount, hlens, heq⟩
  have hmap : shards.map List.length
      = List.replicate totalShards (perShardLen ((jsonMarshalData helloBytes).length + 4)) := by
    rw [show totalShards = (shards.map List.length).length by simp [hcount]]
    apply List.eq_replicate_of_mem
    rintro b hb
    obtain ⟨s, hs, rfl⟩ := List.mem_map.mp hb
    exact hlens s hs
  have hflatlen : shards.flatten.length = 30 := by
    rw [List.length_flatten, hmap]
    decide
  have hstreamlen : (fromImage (toImageN
      ((rsEncode parityZeros (rsChunks (frame (jsonMarshalData helloBytes)))).flatten)
      (frame (jsonMarshalData helloBytes)).length)).length = 25 := by decide
  have := congrArg List.length heq
  rw [hstreamlen] at this
  simp [hflatlen, u32be] at this

/-- C2 failing input, evaluated: encode `{"Data": "hello"}`, then zero a
single shard's pixel region (stream bytes 5–9, inside encode-side shard 1 of
6 — one shard, within the claimed tolerance of two) and decode: the decoder
does not recover the payload but fails with a JSON syntax error, because the
image holds no parity bytes and `Reconstruct` treats all shards as present.
Zeroing three shards' regions (stream bytes 5–19) likewise produces the same
JSON error, not the claimed `UnrecoverableError`. -/
theorem erasure_intolerance_hello :
    ((encodeDataToImage jsonMarshalData parityZeros helloBytes).bind
        (fun img => decodeImageToData jsonUnmarshalData (zeroPixelRange img 5 10))
      = Except.error "invalid character") ∧
    ((encodeDataToImage jsonMarshalData parityZeros helloBytes).bind
        (fun img => decodeImageToData jsonUnmarshalData (zeroPixelRange img 5 20))
      = Except.error "invalid character") := by
  constructor <;> decide

/-- C9: the decode result depends only on the first `4 + L` bytes of the
pixel stream, where `L` is the length declared in the first 4 bytes: two
images of equal dimensions whose streams agree on indices `0 .. 4+L-1`
(with `L ≤ S*S - 4`) decode identically — later bytes, including all
would-be parity content, never influence the output. -/
theorem decode_depends_only_on_declared_region {α : Type}
    (deser : List Nat → Except String α) (img1 img2 : GoImage)
    (hside : img1.side = img2.side)
    (hL : readU32be (fromImage img1) ≤ img1.side * img1.side - 4)
    (hagree : (fromImage img1).take (4 + readU32be (fromImage img1))
      = (fromImage img2).take (4 + readU32be (fromImage img1))) :
    decodeImageToData deser img1 = decodeImageToData deser img2 := by
  have hlen1 : (fromImage img1).length = img1.side * img1.side := fromImage_length img1
  have hlen2 : (fromImage img2).length = img2.side * img2.side := fromImage_length img2
  have hleneq : (fromImage img1).length = (fromImage img2).length := by
    rw [hlen1, hlen2, hside]
  by_cases hshort : (fromImage img1).length < 4
  · simp only [decodeImageToData]
    rw [if_pos hshort, if_pos (by omega)]
  · have hmin : min 4 (4 + readU32be (fromImage img1)) = 4 := by omega
    have htake4 : (fromImage img1).take 4 = (fromImage img2).take 4 := by
      calc (fromImage img1).take 4
          = ((fromImage img1).take (4 + readU32be (fromImage img1))).take 4 := by
            rw [List.take_take, hmin]
        _ = ((fromImage img2).take (4 + readU32be (fromImage img1))).take 4 := by
            rw [hagree]
        _ = (fromImage img2).take 4 := by rw [List.take_take, hmin]
    have hread : readU32be (fromImage img2) = readU32be (fromImage img1) :=
      (readU32be_congr htake4).symm
    have hd1 : ((fromImage img1).drop 4).length = (fromImage img1).length - 4 :=
      List.length_drop ..
    have hd2 : ((fromImage img2).drop 4).length = (fromImage img2).length - 4 :=
      List.length_drop ..
    have hLlen : readU32be (fromImage img1) ≤ (fromImage img1).length - 4 := by
      rw [hlen1]; exact hL
    simp only [decodeImageToData]
    rw [if_neg hshort, if_neg (by omega), hread, if_neg (by omega), if_neg (by omega)]
    by_cases hzero : ((fromImage img1).drop 4).length = 0
    · rw [show rsSplit ((fromImage img1).drop 4)
          = Except.error "not enough data to fill the number of requested shards" by
            rw [rsSplit, if_pos hzero],
        show rsSplit ((fromImage img2).drop 4)
          = Except.error "not enough data to fill the number of requested shards" by
            rw [rsSplit, if_pos (by omega)]]
    · rw [rsSplit_eq_ok _ hzero, rsSplit_eq_ok _ (by omega)]
      simp only [rsReconstruct]
      rw [rsChunks_flatten, rsChunks_flatten]
      have hb1 : readU32be (fromImage img1)
          ≤ (((fromImage img1).drop 4) ++ List.replicate
              (totalShards * perShardLen ((fromImage img1).drop 4).length
                - ((fromImage img1).drop 4).length) 0).length := by
        have := length_le_total_perShard ((fromImage img1).drop 4).length
        simp only [List.length_append, List.length_replicate]
        omega
      have hb2 : readU32be (fromImage img1)
          ≤ (((fromImage img2).drop 4) ++ List.replicate
              (totalShards * perShardLen ((fromImage img2).drop 4).length
                - ((fromImage img2).drop 4).length) 0).length := by
        have := length_le_total_perShard ((fromImage img2).drop 4).length
        simp only [List.length_append, List.length_replicate]
        omega
      unfold goSliceTo
      rw [if_pos hb1, if_pos hb2]
      have ht1 : (((fromImage img1).drop 4) ++ List.replicate
            (totalShards * perShardLen ((fromImage img1).drop 4).length
              - ((fromImage img1).drop 4).length) 0).take (readU32be (fromImage img1))
          = ((fromImage img1).drop 4).take (readU32be (fromImage img1)) :=
        take_append_of_le _ _ _ (by omega)
      have ht2 : (((fromImage img2).drop 4) ++ List.replicate
            (totalShards * perShardLen ((fromImage img2).drop 4).length
              - ((fromImage img2).drop 4).length) 0).take (readU32be (fromImage img1))
          = ((fromImage img2).drop 4).take (readU32be (fromImage img1)) :=
        take_append_of_le _ _ _ (by omega)
      rw [ht1, ht2]
      have hdt : ∀ img : GoImage,
          ((fromImage img).drop 4).take (readU32be (fromImage img1))
            = ((fromImage img).take (4 + readU32be (fromImage img1))).drop 4 := by
        intro img
        rw [List.drop_take, show 4 + readU32be (fromImage img1) - 4
          = readU32be (fromImage img1) by omega]
      rw [hdt img1, hdt img2, hagree]

/-- Witness for C9: two concrete 3×3 images agreeing on the declared region
(declared length 0, bytes 0–3) but differing at stream index 8 decode to the
same result. -/
theorem decode_depends_only_on_declared_region_witness :
    (⟨3, fun _ _ => ⟨0, 0, 0, 255⟩⟩ : GoImage).side
      = (⟨3, fun x y => if y * 3 + x = 8 then ⟨255, 255, 255, 255⟩
          else ⟨0, 0, 0, 255⟩⟩ : GoImage).side ∧
    readU32be (fromImage (⟨3, fun _ _ => ⟨0, 0, 0, 255⟩⟩ : GoImage)) ≤ 3 * 3 - 4 ∧
    (fromImage (⟨3, fun _ _ => ⟨0, 0, 0, 255⟩⟩ : GoImage)).take
        (4 + readU32be (fromImage (⟨3, fun _ _ => ⟨0, 0, 0, 255⟩⟩ : GoImage)))
      = (fromImage (⟨3, fun x y => if y * 3 + x = 8 then ⟨255, 255, 255, 255⟩
          else ⟨0, 0, 0, 255⟩⟩ : GoImage)).take
        (4 + readU32be (fromImage (⟨3, fun _ _ => ⟨0, 0, 0, 255⟩⟩ : GoImage))) ∧
    decodeImageToData jsonUnmarshalData (⟨3, fun _ _ => ⟨0, 0, 0, 255⟩⟩ : GoImage)
      = decodeImageToData jsonUnmarshalData
        (⟨3, fun x y => if y * 3 + x = 8 then ⟨255, 255, 255, 255⟩
          else ⟨0, 0, 0, 255⟩⟩ : GoImage) :=
  ⟨rfl, by decide, by decide,
    decode_depends_only_on_declared_region jsonUnmarshalData _ _ rfl
      (by decide) (by decide)⟩

/-- C10: the decoder's length check is total — a declared length exceeding
the available `S*S - 4` bytes yields the shorter-than-expected error rather
than a panic, and whenever the check passes the final truncation
`rebuiltData[:dataLength]` is within bounds: the concatenated reconstructed
shards always hold at least `dataLength` bytes, so the guarded slice
succeeds. -/
theorem decode_length_check_total {α : Type} (deser : List Nat → Except String α)
    (img : GoImage) :
    (4 ≤ (fromImage img).length →
      (fromImage img).length - 4 < readU32be (fromImage img) →
      decodeImageToData deser img = Except.error "data in image is shorter than expected") ∧
    (∀ ss, rsSplit ((fromImage img).drop 4) = Except.ok ss →
      readU32be (fromImage img) ≤ (fromImage img).length - 4 →
      goSliceTo ss.flatten (readU32be (fromImage img))
        = Except.ok (ss.flatten.take (readU32be (fromImage img)))) := by
  constructor
  · intro h4 hgt
    simp only [decodeImageToData]
    rw [if_neg (by omega), if_pos (by rw [List.length_drop]; omega)]
  · intro ss hss hle
    obtain ⟨hne, rfl⟩ := rsSplit_ok_inv hss
    unfold goSliceTo
    rw [if_pos ?hbound]
    case hbound =>
      rw [rsChunks_flatten]
      have h1 := length_le_total_perShard ((fromImage img).drop 4).length
      have h2 := List.length_drop 4 (fromImage img)
      simp only [List.length_append, List.length_replicate]
      omega

/-- Witness for C10: a 2×2 all-white image declares length `0xFFFFFFFF` and
is rejected with the shorter-than-expected error; a 3×3 all-black image
passes the check and its guarded truncation succeeds. -/
theorem decode_length_check_total_witness :
    4 ≤ (fromImage (⟨2, fun _ _ => ⟨255, 255, 255, 255⟩⟩ : GoImage)).length ∧
    (fromImage (⟨2, fun _ _ => ⟨255, 255, 255, 255⟩⟩ : GoImage)).length - 4
      < readU32be (fromImage (⟨2, fun _ _ => ⟨255, 255, 255, 255⟩⟩ : GoImage)) ∧
    decodeImageToData jsonUnmarshalData (⟨2, fun _ _ => ⟨255, 255, 255, 255⟩⟩ : GoImage)
      = Except.error "data in image is shorter than expected" ∧
    rsSplit ((fromImage (⟨3, fun _ _ => ⟨0, 0, 0, 255⟩⟩ : GoImage)).drop 4)
      = Except.ok (rsChunks ((fromImage (⟨3, fun _ _ => ⟨0, 0, 0, 255⟩⟩ : GoImage)).drop 4)) ∧
    readU32be (fromImage (⟨3, fun _ _ => ⟨0, 0, 0, 255⟩⟩ : GoImage))
      ≤ (fromImage (⟨3, fun _ _ => ⟨0, 0, 0, 255⟩⟩ : GoImage)).length - 4 ∧
    goSliceTo (rsChunks ((fromImage (⟨3, fun _ _ => ⟨0, 0, 0, 255⟩⟩ : GoImage)).drop 4)).flatten
        (readU32be (fromImage (⟨3, fun _ _ => ⟨0, 0, 0, 255⟩⟩ : GoImage)))
      = Except.ok ((rsChunks ((fromImage (⟨3, fun _ _ => ⟨0, 0, 0, 255⟩⟩ : GoImage)).drop 4)).flatten.take
          (readU32be (fromImage (⟨3, fun _ _ => ⟨0, 0, 0, 255⟩⟩ : GoImage)))) :=
  ⟨by decide, by decide,
    (decode_length_check_total jsonUnmarshalData
      (⟨2, fun _ _ => ⟨255, 255, 255, 255⟩⟩ : GoImage)).1 (by decide) (by decide),
    by decide, by decide,
    (decode_length_check_total jsonUnmarshalData
      (⟨3, fun _ _ => ⟨0, 0, 0, 255⟩⟩ : GoImage)).2 _ (by decide) (by decide)⟩

end ImgCodec
